import Mathlib

/-!
# Verification of the contract_git_search snippet pipeline

Shallow embedding of the core reduction pipeline of the repository
(`ai-script.py`, with the sibling fetcher in `featureExtraction.py`):

* `sanitize_hex_addresses` — address sanitizer,
* `compress_snippet`       — boundary-aware snippet compressor,
* `are_similar`            — difflib-based similarity comparator,
* `deduplicate_snippets`   — score-and-dedup selector,
* `GitHubAPI.search_contract` — the paginated-fetch loop.

Text is modelled as `List Char` (wrapped into `String` at the public
interface).  Python `str.splitlines` is modelled with its full set of
line boundaries (LF, VT, FF, CR, the CR LF pair, FS, GS, RS, NEL, LINE
SEPARATOR, PARAGRAPH SEPARATOR).  Python floats used for the scores and
the similarity ratio are modelled as exact rationals.
-/

namespace ContractGitSearch

/-- Python whitespace (ASCII range), as used by `str.strip`/`str.split`/`\s`. -/
def pyIsWs (c : Char) : Bool :=
  c = ' ' || c = '\t' || c = '\n' || c = '\r' || c = '\x0b' || c = '\x0c'

/-- Python `str.strip()`: drop leading and trailing whitespace. -/
def pyStrip (cs : List Char) : List Char :=
  ((cs.dropWhile pyIsWs).reverse.dropWhile pyIsWs).reverse

/-- Python `str.lower()` (ASCII model). -/
def pyLower (cs : List Char) : List Char := cs.map Char.toLower

/-- The line-boundary characters of Python `str.splitlines()`: LF (10),
VT (11), FF (12), CR (13), FS (28), GS (29), RS (30), NEL (133), LINE
SEPARATOR (8232) and PARAGRAPH SEPARATOR (8233). -/
def isPyLineBreak (c : Char) : Bool :=
  c.toNat = 10 || c.toNat = 11 || c.toNat = 12 || c.toNat = 13 ||
  c.toNat = 28 || c.toNat = 29 || c.toNat = 30 || c.toNat = 133 ||
  c.toNat = 8232 || c.toNat = 8233

/-- The scanner behind Python `str.splitlines()`: `cur` holds the current
line reversed; a boundary character emits it, and a non-empty final line
is emitted at the end of the input (a trailing boundary yields no
trailing empty line).  After a CR the flag `afterCR` is set so that an
immediately following LF is swallowed, making the pair CR LF a single
boundary. -/
def pySplitlinesGo : Bool → List Char → List Char → List (List Char)
  | _, cur, [] => if cur = [] then [] else [cur.reverse]
  | afterCR, cur, c :: rest =>
    if afterCR && (c == '\n') then pySplitlinesGo false cur rest
    else if c = '\r' then cur.reverse :: pySplitlinesGo true [] rest
    else if isPyLineBreak c then cur.reverse :: pySplitlinesGo false [] rest
    else pySplitlinesGo false (c :: cur) rest

/-- Python `str.splitlines()`: split at every line boundary, with CR LF
counting as one boundary; the empty string yields no lines. -/
def pySplitlines (cs : List Char) : List (List Char) :=
  pySplitlinesGo false [] cs

/-- The join `"\n".join(lines)`. -/
def joinNl : List (List Char) → List Char
  | [] => []
  | [x] => x
  | x :: y :: rest => x ++ '\n' :: joinNl (y :: rest)

/-- Python substring test `needle in hay`. -/
def containsSub (needle : List Char) : List Char → Bool
  | [] => needle.isEmpty
  | hay@(_ :: rest) => needle.isPrefixOf hay || containsSub needle rest

/-! ## compress_snippet (`ai-script.py`, lines 66–123) -/

/-- The fixed `boundary_patterns` vocabulary of `compress_snippet.is_code_boundary`. -/
def boundary_patterns : List (List Char) :=
  ["function", "contract", "library", "interface",
   "constructor", "modifier", "event",
   "\x7d", "\x7d;", ");"].map String.data

/-- The predicate `is_code_boundary`: the stripped line starts or ends with one of the patterns. -/
def is_code_boundary (line : List Char) : Bool :=
  let stripped := pyStrip line
  boundary_patterns.any fun p => p.isPrefixOf stripped || p.isSuffixOf stripped

/-- The loop `while start > 0: if is_code_boundary(lines[start-1]): break; start -= 1`. -/
def extendStart (lines : List (List Char)) : Nat → Nat
  | 0 => 0
  | s + 1 => if is_code_boundary (lines.getD s []) then s + 1 else extendStart lines s

/-- One step per fuel unit of
`while end < len(lines): if is_code_boundary(lines[end-1]): end += 1; break; end += 1`.
Each iteration increments `e`, so `lines.length + 1` fuel always outlasts
the loop (structural recursion keeps the function kernel-reducible). -/
def extendEndGo (lines : List (List Char)) : Nat → Nat → Nat
  | 0, e => e
  | fuel + 1, e =>
    if e < lines.length then
      if is_code_boundary (lines.getD (e - 1) []) then e + 1 else extendEndGo lines fuel (e + 1)
    else e

/-- The end-extension loop of `find_block_bounds`. -/
def extendEnd (lines : List (List Char)) (e : Nat) : Nat :=
  extendEndGo lines (lines.length + 1) e

/-- The helper `find_block_bounds`: window `idx-2 .. idx+3` extended outward to code boundaries. -/
def find_block_bounds (lines : List (List Char)) (idx : Nat) : Nat × Nat :=
  (extendStart lines (idx - 2), extendEnd lines (min lines.length (idx + 3)))

/-- The index loop `for idx, line in enumerate(lines): if target_marker in line`. -/
def findMarkerFrom (marker : List Char) : List (List Char) → Nat → Option Nat
  | [], _ => none
  | line :: rest, i => if containsSub marker line then some i else findMarkerFrom marker rest (i + 1)

/-- Index of the first line containing the marker, if any. -/
def findMarkerIdx (lines : List (List Char)) (marker : List Char) : Option Nat :=
  findMarkerFrom marker lines 0

/-- The progressive-trimming loop of `compress_snippet`: accumulate
`len(line)+1` per line, remember the last boundary index, and on overflow
return the break index `last_boundary if last_boundary > 0 else idx`.
Returns `none` when the loop runs off the end of the lines. -/
def progScan (maxLen : Nat) : List (List Char) → Nat → Nat → Nat → Option Nat
  | [], _, _, _ => none
  | l :: rest, idx, total, lastB =>
    let total' := total + l.length + 1
    let lastB' := if is_code_boundary l then idx else lastB
    if maxLen < total' then some (if 0 < lastB' then lastB' else idx)
    else progScan maxLen rest (idx + 1) total' lastB'

/-- The trailing ellipsis `"\n..."` appended on truncation. -/
def nlDots : List Char := ['\n', '.', '.', '.']

/-- The tail `if len(block) <= max_length: return block; return block[:max_length] + "\n..."`. -/
def truncEllipsis (maxLen : Nat) (block : List Char) : List Char :=
  if block.length ≤ maxLen then block else block.take maxLen ++ nlDots

/-- The function `compress_snippet` on character lists. -/
def compressCore (snippet marker : List Char) (maxLen : Nat) : List Char :=
  if snippet = [] then []
  else
    let lines := pySplitlines snippet
    match findMarkerIdx lines marker with
    | some idx =>
      let b := find_block_bounds lines idx
      truncEllipsis maxLen (joinNl ((lines.drop b.1).take (b.2 - b.1)))
    | none =>
      match progScan maxLen lines 0 0 0 with
      | some breakIdx => joinNl (lines.take breakIdx) ++ nlDots
      | none => snippet

/-- The function `compress_snippet(snippet, target_marker="target_SC", max_length=400)`. -/
def compress_snippet (snippet : String) (marker : String := "target_SC")
    (maxLen : Nat := 400) : String :=
  ⟨compressCore snippet.data marker.data maxLen⟩

/-! ## sanitize_hex_addresses (`ai-script.py`, lines 48–63)

The address pattern is the regex `0x[a-fA-F0-9]{40}`.  `re.sub` scans left
to right and replaces non-overlapping matches, resuming after each match.
The per-call `address_cache` memoizes the pure function
`addr ↦ replacement`; since the replacement depends only on the matched
token and the target address, the cache has no observable effect and the
replacer is modelled directly. -/

/-- The character class `[a-fA-F0-9]`. -/
def isHexDigit (c : Char) : Bool :=
  ('0' ≤ c && c ≤ '9') || ('a' ≤ c && c ≤ 'f') || ('A' ≤ c && c ≤ 'F')

/-- Try to match `0x[a-fA-F0-9]{40}` at the head of the list; on success,
return the 42-character match and the remaining suffix. -/
def matchAddr (cs : List Char) : Option (List Char × List Char) :=
  if cs.take 2 = ['0', 'x'] ∧ 42 ≤ cs.length ∧ ((cs.drop 2).take 40).all isHexDigit then
    some (cs.take 42, cs.drop 42)
  else none

/-- Does the address pattern match anywhere in the text? -/
def hasAddrToken : List Char → Bool
  | [] => false
  | cs@(_ :: rest) => (matchAddr cs).isSome || hasAddrToken rest

/-- One step per fuel unit of `pattern.sub(replacer, text)`: left-to-right
non-overlapping replacement.  Every step consumes at least one character
(42 on a match), so `cs.length + 1` fuel always outlasts the scan. -/
def subAddrGo (repl : List Char → List Char) : Nat → List Char → List Char
  | 0, cs => cs
  | fuel + 1, cs =>
    match matchAddr cs with
    | some m => repl m.1 ++ subAddrGo repl fuel m.2
    | none =>
      match cs with
      | [] => []
      | c :: rest => c :: subAddrGo repl fuel rest

/-- The substitution `pattern.sub(replacer, text)`. -/
def subAddr (repl : List Char → List Char) (cs : List Char) : List Char :=
  subAddrGo repl (cs.length + 1) cs

/-- The `replacer`: the target address (case-insensitively) becomes
`"target_SC"`; any other matched address becomes `addr[:6] + "..." + addr[-4:]`. -/
def addrReplacer (target : List Char) (m : List Char) : List Char :=
  if pyLower m = pyLower target then "target_SC".data
  else m.take 6 ++ "...".data ++ m.drop (m.length - 4)

/-- The function `sanitize_hex_addresses(text, target_address)`. -/
def sanitize_hex_addresses (text target_address : String) : String :=
  ⟨subAddr (addrReplacer target_address.data) text.data⟩

/-! ## are_similar (`ai-script.py`, lines 126–140)

`normalize` removes comments with the regex `\/\*.*?\*\/|\/\/.*$`
(MULTILINE, so `.` never crosses a newline: block comments are only
removed when they close on the same line, and `//` comments are removed
up to the end of their line), then lower-cases and collapses whitespace
with `' '.join(text.lower().split())`.

If either normalized string is shorter than 50 characters the comparator
requires exact equality; otherwise it computes
`difflib.SequenceMatcher(None, a_norm, b_norm).ratio()` and compares it
with the threshold (default 0.9).  The matcher is modelled below
following CPython's `difflib` with `isjunk=None`: `b2j` maps each
character of `b` to its ascending list of indices; with `autojunk=True`,
when `len(b) >= 200`, characters occurring more than `len(b)//100 + 1`
times are *popular* and removed from `b2j` (they cannot seed a match but
can still be absorbed by the non-junk extension loops).  The junk set
`bjunk` is empty since `isjunk is None`, so the two junk-extension loops
of `find_longest_match` never fire and are omitted. -/

/-- Drop characters up to (but not including) the next `'\n'`
(the regex `.` cannot match a newline). -/
def dropToNl : List Char → List Char
  | [] => []
  | c :: rest => if c = '\n' then c :: rest else dropToNl rest

/-- Scan for the first `"*/"` with no intervening newline; on success
return the suffix after it (the lazy `.*?\*\/` of the comment regex). -/
def findStarSlash : List Char → Option (List Char)
  | [] => none
  | c :: rest =>
    if c = '\n' then none
    else if c = '*' ∧ rest.take 1 = ['/'] then some (rest.drop 1)
    else findStarSlash rest

/-- One step per fuel unit of
`re.sub(r'\/\*.*?\*\/|\/\/.*$', '', text, flags=re.MULTILINE)`:
remove one-line block comments and line comments.  Every step consumes at
least one character, so `cs.length + 1` fuel always outlasts the scan. -/
def stripCommentsGo : Nat → List Char → List Char
  | 0, cs => cs
  | fuel + 1, cs =>
    match cs with
    | [] => []
    | '/' :: '*' :: rest =>
      match findStarSlash rest with
      | some rest' => stripCommentsGo fuel rest'
      | none => '/' :: stripCommentsGo fuel ('*' :: rest)
    | '/' :: '/' :: rest => stripCommentsGo fuel (dropToNl rest)
    | c :: rest => c :: stripCommentsGo fuel rest

/-- Comment removal of `are_similar.normalize`. -/
def stripComments (cs : List Char) : List Char :=
  stripCommentsGo (cs.length + 1) cs

/-- One token or one whitespace character per fuel unit of `str.split()`
with no separator: whitespace-delimited tokens, no empties.  Every step
consumes at least one character, so `cs.length + 1` fuel suffices. -/
def pySplitWsGo : Nat → List Char → List (List Char)
  | 0, _ => []
  | fuel + 1, cs =>
    match cs with
    | [] => []
    | c :: rest =>
      if pyIsWs c then pySplitWsGo fuel rest
      else (c :: rest.takeWhile (fun d => !pyIsWs d)) ::
        pySplitWsGo fuel (rest.dropWhile (fun d => !pyIsWs d))

/-- Python `str.split()` with no separator. -/
def pySplitWs (cs : List Char) : List (List Char) :=
  pySplitWsGo (cs.length + 1) cs

/-- The join of tokens with single spaces. -/
def joinSpace : List (List Char) → List Char
  | [] => []
  | [x] => x
  | x :: y :: rest => x ++ ' ' :: joinSpace (y :: rest)

/-- The `normalize` helper of `are_similar`: strip comments, lower-case, collapse whitespace. -/
def normalizeSim (cs : List Char) : List Char :=
  joinSpace (pySplitWs (pyLower (stripComments cs)))

/-! ### difflib.SequenceMatcher (CPython model, `isjunk=None`) -/

/-- Append an index to a character's entry of `b2j` (insertion-ordered
association list; each list of indices stays ascending). -/
def b2jAdd (m : List (Char × List Nat)) (c : Char) (j : Nat) : List (Char × List Nat) :=
  match m with
  | [] => [(c, [j])]
  | (c', js) :: rest => if c' = c then (c', js ++ [j]) :: rest else (c', js) :: b2jAdd rest c j

/-- The indexing loop of `b2j` construction. -/
def b2jGo : List Char → Nat → List (Char × List Nat) → List (Char × List Nat)
  | [], _, m => m
  | c :: rest, j, m => b2jGo rest (j + 1) (b2jAdd m c j)

/-- The map `b2j` before the autojunk purge: each character of `b` maps to its
ascending list of positions. -/
def buildB2J (b : List Char) : List (Char × List Nat) :=
  b2jGo b 0 []

/-- The autojunk purge: when `len(b) >= 200`, drop *popular* characters
(those with more than `len(b)//100 + 1` occurrences) from `b2j`. -/
def purgePopular (n : Nat) (m : List (Char × List Nat)) : List (Char × List Nat) :=
  if 200 ≤ n then m.filter (fun p => !(n / 100 + 1 < p.2.length)) else m

/-- Look up a character's (post-purge) index list in `b2j`. -/
def b2jGet (m : List (Char × List Nat)) (c : Char) : List Nat :=
  match m.find? (fun p => p.1 = c) with
  | some p => p.2
  | none => []

/-- Look up `j2len.get(j, 0)` in the per-row length map. -/
def j2lenGet (m : List (Nat × Nat)) (j : Nat) : Nat :=
  match m.find? (fun p => p.1 = j) with
  | some p => p.2
  | none => 0

/-- Here `seqNat n f = f n`, but matching on `n` forces it to a numeral during
kernel reduction; this keeps the run-length values stored in `j2len`
fully evaluated instead of chaining thunks across rows. -/
def seqNat {a : Type} (n : Nat) (f : Nat → a) : a :=
  match n with
  | 0 => f 0
  | m + 1 => f (m + 1)

/-- Here `seqTriple t f = f t`, forcing the three components to numerals
during kernel reduction (see `seqNat`). -/
def seqTriple {a : Type} (t : Nat × Nat × Nat) (f : Nat × Nat × Nat → a) : a :=
  match t with
  | (x, y, z) => seqNat x fun x => seqNat y fun y => seqNat z fun z => f (x, y, z)

/-- One row of `find_longest_match`'s main loop: process the candidate
`j`s for `a[i]` in ascending order (`continue` below `blo`, `break` at
`bhi`), building the new `j2len` and updating the best block.
`j2len.get(j-1, 0)` is `0` when `j = 0` (Python's `j-1 = -1` misses). -/
def flmRow (blo bhi i : Nat) : List Nat → List (Nat × Nat) → List (Nat × Nat) →
    Nat × Nat × Nat → List (Nat × Nat) × (Nat × Nat × Nat)
  | [], _, newm, best => (newm, best)
  | j :: js, oldm, newm, best =>
    if j < blo then flmRow blo bhi i js oldm newm best
    else if bhi ≤ j then (newm, best)
    else
      seqNat ((if j = 0 then 0 else j2lenGet oldm (j - 1)) + 1) fun k =>
      let best' := if best.2.2 < k then (i + 1 - k, j + 1 - k, k) else best
      flmRow blo bhi i js oldm ((j, k) :: newm) best'

/-- The row iteration of `find_longest_match`'s main loop, one row per
fuel unit (`i` increments each step, so `ahi - i + 1` fuel outlasts the
loop; structural recursion keeps the function kernel-reducible). -/
def flmRows (a : List Char) (b2j : List (Char × List Nat)) (blo bhi ahi : Nat) :
    Nat → Nat → List (Nat × Nat) → Nat × Nat × Nat → Nat × Nat × Nat
  | 0, _, _, best => best
  | fuel + 1, i, j2len, best =>
    if i < ahi then
      match flmRow blo bhi i (b2jGet b2j (a.getD i ' ')) j2len [] best with
      | (m, b) => seqTriple b fun b => flmRows a b2j blo bhi ahi fuel (i + 1) m b
    else best

/-- The main loop of `find_longest_match`: one `flmRow` per `i` in
`range(alo, ahi)`, threading `j2len` and the best block. -/
def flmMain (a : List Char) (b2j : List (Char × List Nat)) (alo ahi blo bhi : Nat) :
    Nat × Nat × Nat :=
  flmRows a b2j blo bhi ahi (ahi - alo + 1) alo [] (alo, blo, 0)

/-- Left extension of the best block by equal characters, one step per
fuel unit (`bjunk` is empty, so `not isbjunk(...)` is always true; the
block start decrements each step, so `t.1 + 1` fuel outlasts the loop). -/
def extLeftGo (a b : List Char) (alo blo : Nat) :
    Nat → Nat × Nat × Nat → Nat × Nat × Nat
  | 0, t => t
  | fuel + 1, t =>
    if alo < t.1 ∧ blo < t.2.1 ∧ a.getD (t.1 - 1) ' ' = b.getD (t.2.1 - 1) ' ' then
      extLeftGo a b alo blo fuel (t.1 - 1, t.2.1 - 1, t.2.2 + 1)
    else t

/-- The left non-junk extension loop of `find_longest_match`. -/
def extLeft (a b : List Char) (alo blo : Nat) (t : Nat × Nat × Nat) : Nat × Nat × Nat :=
  extLeftGo a b alo blo (t.1 + 1) t

/-- Right extension of the best block by equal characters, one step per
fuel unit (the block end increments each step while staying below `ahi`,
so `ahi + 1` fuel outlasts the loop). -/
def extRightGo (a b : List Char) (ahi bhi : Nat) :
    Nat → Nat × Nat × Nat → Nat × Nat × Nat
  | 0, t => t
  | fuel + 1, t =>
    if t.1 + t.2.2 < ahi ∧ t.2.1 + t.2.2 < bhi ∧
        a.getD (t.1 + t.2.2) ' ' = b.getD (t.2.1 + t.2.2) ' ' then
      extRightGo a b ahi bhi fuel (t.1, t.2.1, t.2.2 + 1)
    else t

/-- The right non-junk extension loop of `find_longest_match`. -/
def extRight (a b : List Char) (ahi bhi : Nat) (t : Nat × Nat × Nat) : Nat × Nat × Nat :=
  extRightGo a b ahi bhi (ahi + 1) t

/-- The matcher method `find_longest_match(alo, ahi, blo, bhi)` (with empty `bjunk`). -/
def findLongestMatch (a b : List Char) (b2j : List (Char × List Nat))
    (alo ahi blo bhi : Nat) : Nat × Nat × Nat :=
  extRight a b ahi bhi (extLeft a b alo blo (flmMain a b2j alo ahi blo bhi))

/-- Total size of all matching blocks: the recursive block collection of
`get_matching_blocks` (the queue order and the final sort/merge do not
change the sum of block sizes).  `fuel` dominates the recursion depth:
every recursive call is guarded by a nonempty block strictly inside the
parent range, so the depth never exceeds `len(a) + len(b)`. -/
def matchTotal (a b : List Char) (b2j : List (Char × List Nat)) :
    Nat → Nat → Nat → Nat → Nat → Nat
  | 0, _, _, _, _ => 0
  | fuel + 1, alo, ahi, blo, bhi =>
    let t := findLongestMatch a b b2j alo ahi blo bhi
    let i := t.1; let j := t.2.1; let k := t.2.2
    if k = 0 then 0
    else
      k + (if alo < i ∧ blo < j then matchTotal a b b2j fuel alo i blo j else 0)
        + (if i + k < ahi ∧ j + k < bhi then matchTotal a b b2j fuel (i + k) ahi (j + k) bhi else 0)

/-- Sum of matching-block sizes for the whole strings. -/
def smTotal (a b : List Char) : Nat :=
  matchTotal a b (purgePopular b.length (buildB2J b)) (a.length + b.length + 1)
    0 a.length 0 b.length

/-- The ratio `SequenceMatcher.ratio() = 2.0 * matches / (len(a) + len(b))`
(`1.0` when both strings are empty). -/
def smRatioQ (a b : List Char) : ℚ :=
  if a.length + b.length = 0 then mkRat 1 1
  else mkRat (2 * smTotal a b) (a.length + b.length)

/-- The comparator `are_similar(snippet_a, snippet_b, threshold=0.9)`. -/
def are_similar (snippet_a snippet_b : String) (threshold : ℚ := mkRat 9 10) : Bool :=
  let a_norm := normalizeSim snippet_a.data
  let b_norm := normalizeSim snippet_b.data
  if a_norm.length < 50 ∨ b_norm.length < 50 then a_norm = b_norm
  else threshold ≤ smRatioQ a_norm b_norm

/-! ## deduplicate_snippets (`ai-script.py`, lines 143–168)

Python floats in `score_snippet` are modelled as exact rationals.
Python's stable `list.sort(key=..., reverse=True)` is modelled by a
stable insertion sort in descending score order (the output of a stable
sort is uniquely determined by the key order and the input order, so any
stable implementation is equivalent). -/

/-- Does the text match `(function|contract|class)\s+\w+` anywhere?
(`\w` is modelled as ASCII `[a-zA-Z0-9_]`.) -/
def isWordChar (c : Char) : Bool :=
  ('a' ≤ c && c ≤ 'z') || ('A' ≤ c && c ≤ 'Z') || ('0' ≤ c && c ≤ '9') || c = '_'

/-- Does a declaration-keyword match start exactly at the head of the list? -/
def declAtHead (cs : List Char) : Bool :=
  ["function", "contract", "class"].any fun kw =>
    let k := kw.data
    k.isPrefixOf cs &&
      (let after := cs.drop k.length
       !(after.takeWhile pyIsWs).isEmpty && ((after.dropWhile pyIsWs).take 1).all isWordChar &&
        !((after.dropWhile pyIsWs).take 1).isEmpty)

/-- The search `re.search` for a declaration keyword followed by whitespace
and a word character, as a Boolean. -/
def hasDeclPattern : List Char → Bool
  | [] => false
  | cs@(_ :: rest) => declAtHead cs || hasDeclPattern rest

/-- The scorer `score_snippet`: `min(len(s)/1000, 1.0)` plus `0.5` for a
declaration-like pattern plus `0.3` for the marker token.  The float
score is always an integer multiple of `1/1000`; it is modelled by its
numerator over that fixed denominator, which preserves every comparison
the selector makes. -/
def score_snippet (s : String) : Nat :=
  min s.data.length 1000
    + (if hasDeclPattern s.data then 500 else 0)
    + (if containsSub "target_SC".data s.data then 300 else 0)

/-- Mask the quoted-literal regex `['"].*?['"]`: a quote character (of
either kind), lazily up to the next quote character (of either kind),
with no intervening newline (`.`), is replaced by `"..."`. -/
def quoteChar (c : Char) : Bool :=
  c = '"' || c = Char.ofNat 39

/-- Scan for the next quote character with no intervening newline;
on success return the suffix after it. -/
def findQuote : List Char → Option (List Char)
  | [] => none
  | c :: rest =>
    if c = '\n' then none
    else if quoteChar c then some rest
    else findQuote rest

/-- One step per fuel unit of the quoted-literal masking
`re.sub` with pattern quote-lazy-dot-quote and replacement `"..."`:
each step consumes at least one character, so `cs.length + 1` fuel
suffices. -/
def maskQuotesGo : Nat → List Char → List Char
  | 0, cs => cs
  | fuel + 1, cs =>
    match cs with
    | [] => []
    | c :: rest =>
      if quoteChar c then
        match findQuote rest with
        | some rest' => '"' :: '.' :: '.' :: '.' :: '"' :: maskQuotesGo fuel rest'
        | none => c :: maskQuotesGo fuel rest
      else c :: maskQuotesGo fuel rest

/-- The quoted-literal masking step of the comparison key. -/
def maskQuotes (cs : List Char) : List Char :=
  maskQuotesGo (cs.length + 1) cs

/-- The normalized comparison key of `deduplicate_snippets`:
whitespace-collapsed, lower-cased, quoted literals masked.
(`re.sub(r'\s+', ' ', snippet.strip().lower())` on a stripped string is
exactly `' '.join`-of-`split`.) -/
def normKey (s : String) : List Char :=
  maskQuotes (joinSpace (pySplitWs (pyLower (pyStrip s.data))))

/-- Stable descending insertion by score: an element is placed before the
first element whose score is `≤` its own (so earlier input elements stay
first among ties), matching Python's stable `sort(reverse=True)`. -/
def insertByScore (x : String) : List String → List String
  | [] => [x]
  | y :: ys => if score_snippet y ≤ score_snippet x then x :: y :: ys else y :: insertByScore x ys

/-- Python's stable `valid_snippets.sort(key=lambda x: x[1], reverse=True)`. -/
def sortByScoreDesc (l : List String) : List String :=
  l.foldr insertByScore []

/-- The accept loop of `deduplicate_snippets`: accept a candidate iff its
normalized key is unseen and it is not `are_similar` to any already
accepted snippet. -/
def dedupGo : List String → List String → List (List Char) → List String
  | [], uniq, _ => uniq
  | s :: rest, uniq, seen =>
    let key := normKey s
    if key ∉ seen ∧ ∀ u ∈ uniq, are_similar s u = false then
      dedupGo rest (uniq ++ [s]) (key :: seen)
    else
      dedupGo rest uniq seen

/-- The selector `deduplicate_snippets(snippets, min_length=10)`. -/
def deduplicate_snippets (snippets : List String) (min_length : Nat := 10) : List String :=
  if snippets = [] then []
  else
    let valid := snippets.filter fun s => decide (min_length ≤ (pyStrip s.data).length)
    dedupGo (sortByScoreDesc valid) [] []

/-! ## GitHubAPI.search_contract (`ai-script.py`, lines 494–551) and
search_github_for_address (`featureExtraction.py`, lines 74–144)

Both fetchers send a single fixed request — parameters
`{"q": address, "per_page": 100}` with *no* page parameter, which the
service interprets as page 1 — inside a retry loop
`while current_retry < max_retries (= 3)`:

* HTTP 403 with `X-RateLimit-Remaining == 0`: sleep and `continue`
  (the retry counter is untouched, the identical request is re-sent);
* any other request failure (including 403 with remaining quota, via
  `raise_for_status`): the retry counter is incremented;
* a 2xx response: process the items of this one response and stop.

The network is modelled as the finite list of responses returned to
successive outbound requests; the run returns the list of requests that
were sent together with `some result` once the loop exits, or `none` if
the scripted responses are exhausted while the loop still wants to send
another request.  Sleeps have no observable effect and are omitted. -/

/-- An outbound code-search request.  The code never sets a page
parameter, so the page defaults to 1. -/
structure GhRequest where
  q : String
  per_page : Nat
  page : Nat
deriving DecidableEq, Repr

/-- The one request `search_contract`/`search_github_for_address` ever
builds: `{"q": address, "per_page": 100}` (page 1 implicitly). -/
def mkSearchRequest (address : String) : GhRequest :=
  { q := address, per_page := 100, page := 1 }

/-- One item of a code-search response. -/
structure GhItem where
  repo_full_name : String
  repo_description : String
  repo_stars : Nat
  repo_html_url : String
  path : String
  html_url : String
  fragments : List String
deriving DecidableEq, Repr

/-- A response to one outbound request. -/
inductive GhResp where
  /-- HTTP 403 carrying `X-RateLimit-Remaining`. -/
  | rateLimited (remaining : Nat)
  /-- Timeout / connection error / other non-2xx (a `RequestException`). -/
  | netError
  /-- A 2xx response: parsed items, and whether the service reports a
  further page (a `Link: rel="next"` header — ignored by the code). -/
  | ok (items : List GhItem) (hasNextPage : Bool)
deriving DecidableEq, Repr

/-- One repository entry of `search_contract`'s `repos_data`. -/
structure RepoData where
  repo_name : String
  description : String
  stars : Nat
  url : String
  file_path : String
  file_url : String
deriving DecidableEq, Repr

def mkRepoData (it : GhItem) : RepoData :=
  { repo_name := it.repo_full_name, description := it.repo_description,
    stars := it.repo_stars, url := it.repo_html_url,
    file_path := it.path, file_url := it.html_url }

/-- The result dictionary of `search_contract`. -/
structure SearchResult where
  repos_data : List RepoData
  snippets : List String
deriving DecidableEq, Repr

/-- The item loop of `search_contract`: record each repository the first
time its (non-empty) full name is seen — Python dicts preserve insertion
order — and collect every non-empty text-match fragment. -/
def accumulateItems : List GhItem → List (String × RepoData) → List String →
    List (String × RepoData) × List String
  | [], repos, snips => (repos, snips)
  | it :: rest, repos, snips =>
    let repos' :=
      if it.repo_full_name ≠ "" ∧ ∀ p ∈ repos, p.1 ≠ it.repo_full_name then
        repos ++ [(it.repo_full_name, mkRepoData it)]
      else repos
    accumulateItems rest repos' (snips ++ it.fragments.filter (fun f => f ≠ ""))

/-- Processing of the one successful response:
`{"repos_data": list(all_repos.values()), "snippets": deduplicate_snippets(all_snippets)}`. -/
def processItems (items : List GhItem) : SearchResult :=
  let (repos, snips) := accumulateItems items [] []
  { repos_data := repos.map Prod.snd, snippets := deduplicate_snippets snips }

/-- The loop of `GitHubAPI.search_contract(address)` against a scripted list of
responses, starting from a given retry count: returns the requests sent
and, when the loop finishes within the script, its result. -/
def searchContractRun (address : String) :
    List GhResp → Nat → List GhRequest × Option SearchResult
  | resps, retry =>
    if 3 ≤ retry then ([], some { repos_data := [], snippets := deduplicate_snippets [] })
    else
      match resps with
      | [] => ([], none)
      | resp :: rest =>
        let req := mkSearchRequest address
        match resp with
        | .rateLimited 0 =>
          let r := searchContractRun address rest retry
          (req :: r.1, r.2)
        | .rateLimited (_ + 1) =>
          let r := searchContractRun address rest (retry + 1)
          (req :: r.1, r.2)
        | .netError =>
          let r := searchContractRun address rest (retry + 1)
          (req :: r.1, r.2)
        | .ok items _ => ([req], some (processItems items))

/-- One reference row of `search_github_for_address`. -/
structure RefData where
  repo_full_name : String
  file_path : String
  file_url : String
  repo_description : String
  repo_stars : Nat
  snippet_text : String
deriving DecidableEq, Repr

/-- The per-item record of `search_github_for_address`: only the *first*
text-match fragment is kept as `snippet_text`. -/
def mkRefData (it : GhItem) : RefData :=
  { repo_full_name := it.repo_full_name, file_path := it.path,
    file_url := it.html_url, repo_description := it.repo_description,
    repo_stars := it.repo_stars, snippet_text := it.fragments.headD "" }

/-- The item loop of `search_github_for_address`: one reference per
first-seen repository full name. -/
def accumulateRefs : List GhItem → List String → List RefData → List RefData
  | [], _, refs => refs
  | it :: rest, seen, refs =>
    if it.repo_full_name ∈ seen then accumulateRefs rest seen refs
    else accumulateRefs rest (it.repo_full_name :: seen) (refs ++ [mkRefData it])

/-- The loop of `search_github_for_address(address)` against a scripted list of
responses: same retry structure as `search_contract`; after exhausting
the three transient retries it returns the empty reference list. -/
def searchRefsRun (address : String) :
    List GhResp → Nat → List GhRequest × Option (List RefData)
  | resps, retry =>
    if 3 ≤ retry then ([], some [])
    else
      match resps with
      | [] => ([], none)
      | resp :: rest =>
        let req := mkSearchRequest address
        match resp with
        | .rateLimited 0 =>
          let r := searchRefsRun address rest retry
          (req :: r.1, r.2)
        | .rateLimited (_ + 1) =>
          let r := searchRefsRun address rest (retry + 1)
          (req :: r.1, r.2)
        | .netError =>
          let r := searchRefsRun address rest (retry + 1)
          (req :: r.1, r.2)
        | .ok items _ => ([req], some (accumulateRefs items [] []))

/-- The Fetcher's contract as the specification words it (spec §4.1):
"given an identifier string and a page size, returns the set of hits
found across all available pages", merging page by page and "skipping
hits whose repository identity was already recorded", stopping only when
"the service reports no further page token".  Stated over the service's
page contents. -/
def specFetchAllPages (pages : List (List GhItem)) : List RepoData :=
  ((accumulateItems pages.flatten [] []).1).map Prod.snd

/-! ## Concrete instances used by the witnesses and counterexamples -/

/-- A one-line snippet carrying the marker, longer than a maximum of 5. -/
def snip1 : String := "target_SCxxxx"

/-- A list of `n` CR LF pairs. -/
def crlfData : Nat → List Char
  | 0 => []
  | n + 1 => '\r' :: '\n' :: crlfData n

/-- A snippet of 400 CR LF line breaks and nothing else (800 characters):
`splitlines` sees 400 empty lines, so the progressive scan accumulates
exactly 400 and never overflows a 400-character budget. -/
def crlfSnip : String := ⟨crlfData 400⟩

/-- A snippet whose sanitized form contains a *new* address token: the
first pass matches the 40 hex digits made of 39 letters a and a final 0,
and the retained tail recombines with the following x and the 40 letters
c into a fresh match. -/
def snip4 : String :=
  "0xaaaaaaaaaaaaaaaaaaaaaaaaaaaaaaaaaaaaaaa0xcccccccccccccccccccccccccccccccccccccccc"

/-- A target address distinct from every address occurring in `snip4`. -/
def target4 : String := "0xbbbbbbbbbbbbbbbbbbbbbbbbbbbbbbbbbbbbbbbb"

/-- A benign snippet whose sanitized form has no address token left. -/
def snip4w : String := "foo 0xaaaaaaaaaaaaaaaaaaaaaaaaaaaaaaaaaaaaaaaa bar"

/-- Scenario E instance: marker on the 10th line, block-closing boundary
lines at lines 7 and 13, and a 14th line. -/
def snip6 : String :=
  "x1\nx2\nx3\nx4\nx5\nx6\n\x7d\nx8\nx9\ntarget_SC here\nx11\nx12\n\x7d\nLINE14"

/-- A marker-free, boundary-free one-line snippet for the overflow case. -/
def snip9 : String := "abcdefgh"

/-- A 55-character alphabet of characters that each occur exactly three
times in the similarity counterexample strings (so that none of them is
purged as popular by autojunk). -/
def simAlpha : String := "abcdefghijklmnoprstxy0123456789!#$%&()+,-.:;<=>?@[]^_|~"

/-- A string of 170 characters: the 165-character common block, then `uqqqv`.
Below 200 characters, so autojunk never fires when this is the second
argument of the sequence matcher. -/
def simX : String := simAlpha ++ simAlpha ++ simAlpha ++ "uqqqv"

/-- A string of 201 characters: the same common block, then `wqqqzq` and 30 `*`s.
At 201 characters autojunk fires when this is the second argument:
`q` (4 occurrences) and `*` (30) are popular and cannot seed a match,
so the `qqq` block is only found in the other direction. -/
def simY : String := simAlpha ++ simAlpha ++ simAlpha ++ "wqqqzq" ++ String.mk (List.replicate 30 '*')

/-- Scenario A instance: a two-line snippet. -/
def snip8a : String := "alpha beta gamma delta epsilon\nsecond line here"

/-- The same snippet with trailing whitespace and one `//` comment line
inserted. -/
def snip8b : String := "alpha beta gamma delta epsilon   \n// zeta note\nsecond line here"

/-- A first-page search hit. -/
def ghItemA : GhItem :=
  { repo_full_name := "alice/token-a", repo_description := "token A",
    repo_stars := 3, repo_html_url := "https://codehost.test/alice/token-a",
    path := "contracts/A.sol", html_url := "https://codehost.test/alice/token-a/A.sol",
    fragments := ["fragment alpha"] }

/-- A second-page search hit in a different repository. -/
def ghItemB : GhItem :=
  { repo_full_name := "bob/token-b", repo_description := "token B",
    repo_stars := 5, repo_html_url := "https://codehost.test/bob/token-b",
    path := "contracts/B.sol", html_url := "https://codehost.test/bob/token-b/B.sol",
    fragments := ["fragment beta"] }

/-- The running total of the progressive-trimming loop over a list of
lines: each line contributes `len(line) + 1`. -/
def lineTotal (ls : List (List Char)) : Nat :=
  ls.foldr (fun l acc => l.length + 1 + acc) 0

/-!
# Theorems

Shared lemmas first (line/length accounting, loop invariants), then one
theorem per claim with its witness or counterexample.
-/

theorem lineTotal_nil : lineTotal [] = 0 := rfl

theorem lineTotal_cons (l : List Char) (ls : List (List Char)) :
    lineTotal (l :: ls) = l.length + 1 + lineTotal ls := rfl

theorem lineTotal_append (a b : List (List Char)) :
    lineTotal (a ++ b) = lineTotal a + lineTotal b := by
  induction a with
  | nil => simp [lineTotal_nil, lineTotal]
  | cons l rest ih =>
    simp only [List.cons_append, lineTotal_cons, ih]
    omega

theorem joinNl_length_le (ls : List (List Char)) : (joinNl ls).length ≤ lineTotal ls := by
  induction ls with
  | nil => simp [joinNl, lineTotal_nil]
  | cons x rest ih =>
    cases rest with
    | nil => simp [joinNl, lineTotal_cons, lineTotal_nil]
    | cons y t =>
      simp only [joinNl, List.length_append, List.length_cons, lineTotal_cons] at *
      omega

theorem pySplitlinesGo_ne_nil :
    ∀ (rest cur : List Char), cur ≠ [] ∨ rest ≠ [] →
      pySplitlinesGo false cur rest ≠ [] := by
  intro rest
  induction rest with
  | nil =>
    intro cur h
    have hc : cur ≠ [] := by
      rcases h with h | h
      · exact h
      · exact absurd rfl h
    simp only [pySplitlinesGo]
    rw [if_neg hc]
    simp
  | cons c rest ih =>
    intro cur h
    simp only [pySplitlinesGo, Bool.false_and, Bool.false_eq_true, if_false]
    by_cases hr : c = '\r'
    · rw [if_pos hr]
      simp
    · rw [if_neg hr]
      by_cases hb : isPyLineBreak c = true
      · rw [if_pos hb]
        simp
      · rw [if_neg hb]
        exact ih (c :: cur) (Or.inl (by simp))

theorem pySplitlines_ne_nil {cs : List Char} (h : cs ≠ []) : pySplitlines cs ≠ [] :=
  pySplitlinesGo_ne_nil cs [] (Or.inr h)

theorem lineTotal_take_le (ls : List (List Char)) (n : Nat) :
    lineTotal (ls.take n) ≤ lineTotal ls := by
  induction ls generalizing n with
  | nil => simp [lineTotal_nil]
  | cons l rest ih =>
    cases n with
    | zero => simp [lineTotal_nil, lineTotal_cons]
    | succ m =>
      simp only [List.take_succ_cons, lineTotal_cons]
      have := ih m
      omega

theorem lineTotal_take_mono (ls : List (List Char)) {m n : Nat} (h : m ≤ n) :
    lineTotal (ls.take m) ≤ lineTotal (ls.take n) := by
  have : ls.take m = (ls.take n).take m := by
    rw [List.take_take, Nat.min_eq_left h]
  rw [this]
  exact lineTotal_take_le (ls.take n) m

theorem progScan_none_bound (maxLen : Nat) :
    ∀ (ls : List (List Char)) (idx total lastB : Nat), ls ≠ [] →
      progScan maxLen ls idx total lastB = none → total + lineTotal ls ≤ maxLen := by
  intro ls
  induction ls with
  | nil => intro _ _ _ h; exact absurd rfl h
  | cons l rest ih =>
    intro idx total lastB _ h
    simp only [progScan] at h
    split at h
    · exact absurd h (by simp)
    · next hle =>
      by_cases hrest : rest = []
      · subst hrest
        simp only [lineTotal_cons, lineTotal_nil]
        omega
      · have := ih (idx + 1) (total + l.length + 1) (if is_code_boundary l then idx else lastB)
          hrest h
        simp only [lineTotal_cons]
        omega

theorem progScan_some_bound (maxLen : Nat) (full : List (List Char)) :
    ∀ (ls : List (List Char)) (k lastB bi : Nat),
      full.drop k = ls →
      lineTotal (full.take k) ≤ maxLen →
      lastB ≤ k →
      progScan maxLen ls k (lineTotal (full.take k)) lastB = some bi →
      lineTotal (full.take bi) ≤ maxLen := by
  intro ls
  induction ls with
  | nil => intro k lastB bi _ _ _ h; simp [progScan] at h
  | cons l rest ih =>
    intro k lastB bi hdrop htake hlb h
    have hk : k < full.length := by
      by_contra hk
      rw [List.drop_eq_nil_of_le (by omega)] at hdrop
      exact absurd hdrop.symm (by simp)
    have hget : full[k]? = some l := by
      have h0 : (full.drop k)[0]? = some l := by rw [hdrop]; simp
      rwa [List.getElem?_drop, Nat.add_zero] at h0
    have hsucc : lineTotal (full.take (k + 1)) = lineTotal (full.take k) + (l.length + 1) := by
      rw [List.take_succ, hget, lineTotal_append]
      simp [lineTotal_cons, lineTotal_nil]
    have hdrop' : full.drop (k + 1) = rest := by
      have h1 : full.drop (k + 1) = (full.drop k).drop 1 := by
        rw [List.drop_drop, Nat.add_comm]
      rw [h1, hdrop, List.drop_one, List.tail_cons]
    simp only [progScan] at h
    split at h
    · next hover =>
      simp only [Option.some.injEq] at h
      have hbik : bi ≤ k := by
        subst h
        split <;> split <;> omega
      calc lineTotal (full.take bi) ≤ lineTotal (full.take k) := lineTotal_take_mono full hbik
        _ ≤ maxLen := htake
    · next hle =>
      have htake' : lineTotal (full.take (k + 1)) ≤ maxLen := by omega
      have harg : progScan maxLen rest (k + 1) (lineTotal (full.take (k + 1)))
          (if is_code_boundary l then k else lastB) = some bi := by
        rw [hsucc]
        have : lineTotal (full.take k) + (l.length + 1) = lineTotal (full.take k) + l.length + 1 := by omega
        rw [this]
        exact h
      exact ih (k + 1) (if is_code_boundary l then k else lastB) bi hdrop' htake'
        (by split <;> omega) harg

/-- C1, amended bound: every output of `compress_snippet` has length at
most the larger of the configured maximum plus the four characters of
the trailing ellipsis and the snippet's own length (the latter arises on
the fall-through path, which returns the snippet unchanged). -/
theorem compressCore_length_bound (snippet marker : List Char) (maxLen : Nat) :
    (compressCore snippet marker maxLen).length ≤ max (maxLen + 4) snippet.length := by
  unfold compressCore
  split
  · simp
  · next hne =>
    dsimp only
    cases hm : findMarkerIdx (pySplitlines snippet) marker with
    | some idx =>
      dsimp only
      unfold truncEllipsis
      split
      · next hle => omega
      · simp only [List.length_append, List.length_take, nlDots, List.length_cons,
          List.length_nil]
        omega
    | none =>
      dsimp only
      cases hp : progScan maxLen (pySplitlines snippet) 0 0 0 with
      | some bi =>
        dsimp only
        have hb := progScan_some_bound maxLen (pySplitlines snippet) (pySplitlines snippet)
          0 0 bi rfl (by simp [lineTotal_nil]) (Nat.le_refl 0) hp
        have hj := joinNl_length_le ((pySplitlines snippet).take bi)
        simp only [List.length_append, nlDots, List.length_cons, List.length_nil]
        omega
      | none =>
        dsimp only
        omega

set_option maxRecDepth 100000 in
/-- C1 (corrected): the output of `compress_snippet` has length at most
the larger of the configured maximum plus the four characters of the
trailing ellipsis `"\n..."` (which is appended after slicing, so it is
not included in the maximum) and the snippet's own length.  The second
bound is reached: `str.splitlines` counts each line's overhead as one
character even for a two-character CR LF break, so on a snippet of 400
CR LF pairs with maximum 400 the progressive scan accumulates exactly
400, never overflows, and the function returns all 800 characters
unchanged. -/
theorem compress_snippet_length_bound :
    (∀ (snippet marker : String) (maxLen : Nat),
      (compress_snippet snippet marker maxLen).length ≤ max (maxLen + 4) snippet.length) ∧
    compress_snippet crlfSnip "target_SC" 400 = crlfSnip ∧ crlfSnip.length = 800 := by
  refine ⟨fun snippet marker maxLen => ?_, ?_, ?_⟩
  · exact compressCore_length_bound snippet.data marker.data maxLen
  · decide
  · decide

/-- C1, counterexample to the claim as stated: for the snippet
`"target_SCxxxx"` and maximum 5, the output (`"targe\n..."`) has length 9,
exceeding the configured maximum even with the ellipsis counted. -/
theorem compress_snippet_length_cap_cex :
    ¬ ((compress_snippet snip1 "target_SC" 5).length ≤ 5) := by decide

/-- C6 (corrected): when the marker token first appears on the 10th line
(index 9) and lines 7 and 13 (indices 6 and 12) are code boundaries, the
emitted window is `lines[7:e]` for some `e ≤ 14`: it starts at line 8 and
may extend one line *past* the line-13 boundary, i.e. through line 14
(the end loop increments `end` once more after seeing the boundary). -/
theorem compress_marker_window (s marker : String) (maxLen : Nat)
    (hm : findMarkerIdx (pySplitlines s.data) marker.data = some 9)
    (h7 : is_code_boundary ((pySplitlines s.data).getD 6 []) = true)
    (h13 : is_code_boundary ((pySplitlines s.data).getD 12 []) = true) :
    ∃ e, 13 ≤ e ∧ e ≤ 14 ∧
      compress_snippet s marker maxLen =
        ⟨truncEllipsis maxLen (joinNl (((pySplitlines s.data).drop 7).take (e - 7)))⟩ := by
  have hdne : s.data ≠ [] := by
    intro h
    rw [h] at hm
    simp [pySplitlines, pySplitlinesGo, findMarkerIdx, findMarkerFrom] at hm
  have hb_nil : is_code_boundary ([] : List Char) = false := by decide
  have hlen13 : 12 < (pySplitlines s.data).length := by
    by_contra hc
    rw [List.getD_eq_default] at h13
    · rw [h13] at hb_nil
      exact absurd hb_nil (by simp)
    · omega
  have hstart : extendStart (pySplitlines s.data) 7 = 7 := by
    have : extendStart (pySplitlines s.data) 7 =
        if is_code_boundary ((pySplitlines s.data).getD 6 []) then 7
        else extendStart (pySplitlines s.data) 6 := rfl
    rw [this, h7]
    simp
  have hmin : min (pySplitlines s.data).length (9 + 3) = 12 :=
    Nat.min_eq_right (by omega)
  have hcore : ∀ e, find_block_bounds (pySplitlines s.data) 9 = (7, e) →
      compress_snippet s marker maxLen =
        ⟨truncEllipsis maxLen (joinNl (((pySplitlines s.data).drop 7).take (e - 7)))⟩ := by
    intro e hbb
    show (⟨compressCore s.data marker.data maxLen⟩ : String) = _
    unfold compressCore
    rw [if_neg hdne]
    dsimp only
    rw [hm]
    dsimp only
    rw [hbb]
  have hsucc : ∀ fuel e, extendEndGo (pySplitlines s.data) (fuel + 1) e =
      if e < (pySplitlines s.data).length then
        if is_code_boundary ((pySplitlines s.data).getD (e - 1) []) then e + 1
        else extendEndGo (pySplitlines s.data) fuel (e + 1)
      else e := fun _ _ => rfl
  obtain ⟨k, hk⟩ := Nat.exists_eq_add_of_lt hlen13
  have hend : extendEnd (pySplitlines s.data) 12 = 13 ∨
      extendEnd (pySplitlines s.data) 12 = 14 := by
    unfold extendEnd
    rw [hsucc, if_pos hlen13]
    have h11 : (12 : Nat) - 1 = 11 := rfl
    rw [h11]
    by_cases hb11 : is_code_boundary ((pySplitlines s.data).getD 11 []) = true
    · rw [if_pos hb11]
      exact Or.inl rfl
    · rw [if_neg hb11, hk, hsucc]
      have h12 : (13 : Nat) - 1 = 12 := rfl
      rw [h12]
      by_cases hkpos : 0 < k
      · rw [if_pos (by omega), if_pos h13]
        exact Or.inr rfl
      · rw [if_neg (by omega)]
        exact Or.inl rfl
  have hbb : find_block_bounds (pySplitlines s.data) 9 =
      (7, extendEnd (pySplitlines s.data) 12) := by
    unfold find_block_bounds
    have h92 : (9 : Nat) - 2 = 7 := rfl
    have h93 : (9 : Nat) + 3 = 12 := rfl
    rw [h92, h93, hstart, hmin]
  rcases hend with he | he
  · exact ⟨13, by omega, by omega, hcore 13 (by rw [hbb, he])⟩
  · exact ⟨14, by omega, by omega, hcore 14 (by rw [hbb, he])⟩

/-- C6, counterexample to the claim as stated: for a 14-line snippet with
the marker on line 10 and boundary lines exactly at lines 7 and 13, the
emitted window contains the 14th line, so it is not contained within
lines 7 through 13. -/
theorem compress_marker_window_cex :
    findMarkerIdx (pySplitlines snip6.data) "target_SC".data = some 9 ∧
    is_code_boundary ((pySplitlines snip6.data).getD 6 []) = true ∧
    is_code_boundary ((pySplitlines snip6.data).getD 12 []) = true ∧
    ¬ ((pySplitlines (compress_snippet snip6 "target_SC" 400).data).all
        (fun l => (((pySplitlines snip6.data).drop 6).take 7).contains l) = true) := by
  refine ⟨by decide, by decide, by decide, by decide⟩

/-- C6, witness for the amended window theorem at the Scenario E instance. -/
theorem compress_marker_window_witness :
    (findMarkerIdx (pySplitlines snip6.data) "target_SC".data = some 9 ∧
     is_code_boundary ((pySplitlines snip6.data).getD 6 []) = true ∧
     is_code_boundary ((pySplitlines snip6.data).getD 12 []) = true) ∧
    (∃ e, 13 ≤ e ∧ e ≤ 14 ∧
      compress_snippet snip6 "target_SC" 400 =
        ⟨truncEllipsis 400 (joinNl (((pySplitlines snip6.data).drop 7).take (e - 7)))⟩) :=
  ⟨⟨by decide, by decide, by decide⟩,
   compress_marker_window snip6 "target_SC" 400 (by decide) (by decide) (by decide)⟩

/-- C9 (confirmed): for a non-empty snippet without the marker token and
without boundary lines, whose first line plus one newline already exceeds
the maximum length, `compress_snippet` returns exactly `"\n..."` — four
characters containing none of the snippet's content. -/
theorem compress_overflow_first_line (s marker : String) (maxLen : Nat)
    (hne : s ≠ "")
    (hnm : findMarkerIdx (pySplitlines s.data) marker.data = none)
    (hnb : ∀ l ∈ pySplitlines s.data, is_code_boundary l = false)
    (hlen : maxLen < ((pySplitlines s.data).getD 0 []).length + 1) :
    compress_snippet s marker maxLen = "\n..." := by
  have hdne : s.data ≠ [] := by
    intro h
    exact hne (by cases s; simp_all)
  obtain ⟨l0, rest, hl⟩ : ∃ l0 rest, pySplitlines s.data = l0 :: rest := by
    cases hq : pySplitlines s.data with
    | nil => exact absurd hq (pySplitlines_ne_nil hdne)
    | cons a b => exact ⟨a, b, rfl⟩
  show (⟨compressCore s.data marker.data maxLen⟩ : String) = "\n..."
  unfold compressCore
  rw [if_neg hdne]
  dsimp only
  rw [hnm]
  dsimp only
  rw [hl]
  have hscan : progScan maxLen (l0 :: rest) 0 0 0 = some 0 := by
    simp only [progScan]
    have hov : maxLen < 0 + l0.length + 1 := by
      rw [hl] at hlen
      simpa using hlen
    rw [if_pos hov]
    congr 1
    split <;> simp
  rw [hscan]
  rfl

/-- C9, witness at a concrete one-line snippet with maximum 5. -/
theorem compress_overflow_first_line_witness :
    (snip9 ≠ "" ∧ findMarkerIdx (pySplitlines snip9.data) "target_SC".data = none ∧
     (∀ l ∈ pySplitlines snip9.data, is_code_boundary l = false) ∧
     5 < ((pySplitlines snip9.data).getD 0 []).length + 1) ∧
    compress_snippet snip9 "target_SC" 5 = "\n..." :=
  ⟨⟨by decide, by decide, by decide, by decide⟩,
   compress_overflow_first_line snip9 "target_SC" 5 (by decide) (by decide) (by decide)
     (by decide)⟩

theorem subAddrGo_eq_self (repl : List Char → List Char) :
    ∀ (fuel : Nat) (cs : List Char), hasAddrToken cs = false →
      subAddrGo repl fuel cs = cs := by
  intro fuel
  induction fuel with
  | zero => intro cs _; rfl
  | succ f ih =>
    intro cs h
    cases cs with
    | nil => rfl
    | cons c rest =>
      simp only [hasAddrToken, Bool.or_eq_false_iff] at h
      have hnone : matchAddr (c :: rest) = none := by
        cases hm : matchAddr (c :: rest) with
        | none => rfl
        | some m =>
          rw [hm] at h
          simp at h
      simp only [subAddrGo, hnone]
      rw [ih rest h.2]

/-- C4 (amended): sanitizing is idempotent on every snippet whose sanitized
form contains no address-shaped token; the substitution with no match
leaves the text unchanged. -/
theorem sanitize_idempotent_of_clean (text target : String)
    (h : hasAddrToken (sanitize_hex_addresses text target).data = false) :
    sanitize_hex_addresses (sanitize_hex_addresses text target) target =
      sanitize_hex_addresses text target := by
  apply String.ext
  show subAddr (addrReplacer target.data) (sanitize_hex_addresses text target).data =
    (sanitize_hex_addresses text target).data
  unfold subAddr
  exact subAddrGo_eq_self _ _ _ h

/-- C4, counterexample to idempotence as stated: in `snip4` the first pass
rewrites the leading address, and the kept tail characters recombine with
the following text into a new address token, which the second pass
rewrites again. -/
theorem sanitize_idempotent_cex :
    sanitize_hex_addresses (sanitize_hex_addresses snip4 target4) target4 ≠
      sanitize_hex_addresses snip4 target4 := by decide

/-- C4, witness for the amended idempotence theorem at a clean snippet. -/
theorem sanitize_idempotent_of_clean_witness :
    hasAddrToken (sanitize_hex_addresses snip4w target4).data = false ∧
    sanitize_hex_addresses (sanitize_hex_addresses snip4w target4) target4 =
      sanitize_hex_addresses snip4w target4 :=
  ⟨by decide, sanitize_idempotent_of_clean snip4w target4 (by decide)⟩

theorem mem_insertByScore {x y : String} {l : List String}
    (h : y ∈ insertByScore x l) : y = x ∨ y ∈ l := by
  induction l with
  | nil =>
    simp only [insertByScore, List.mem_singleton] at h
    exact Or.inl h
  | cons z t ih =>
    simp only [insertByScore] at h
    split at h
    · rcases List.mem_cons.mp h with h1 | h1
      · exact Or.inl h1
      · exact Or.inr h1
    · rcases List.mem_cons.mp h with h1 | h1
      · exact Or.inr (by simp [h1])
      · rcases ih h1 with h2 | h2
        · exact Or.inl h2
        · exact Or.inr (List.mem_cons_of_mem _ h2)

theorem length_insertByScore (x : String) (l : List String) :
    (insertByScore x l).length = l.length + 1 := by
  induction l with
  | nil => rfl
  | cons z t ih =>
    simp only [insertByScore]
    split
    · simp
    · simp [ih]

theorem mem_sortByScoreDesc {y : String} {l : List String}
    (h : y ∈ sortByScoreDesc l) : y ∈ l := by
  induction l with
  | nil => simpa [sortByScoreDesc] using h
  | cons x t ih =>
    simp only [sortByScoreDesc, List.foldr_cons] at h
    rcases mem_insertByScore h with h1 | h1
    · simp [h1]
    · exact List.mem_cons_of_mem _ (ih h1)

theorem length_sortByScoreDesc (l : List String) :
    (sortByScoreDesc l).length = l.length := by
  induction l with
  | nil => rfl
  | cons x t ih =>
    simp only [sortByScoreDesc, List.foldr_cons] at *
    rw [length_insertByScore, ih]
    simp

theorem dedupGo_mem :
    ∀ (rest uniq : List String) (seen : List (List Char)) (x : String),
      x ∈ dedupGo rest uniq seen → x ∈ uniq ∨ x ∈ rest := by
  intro rest
  induction rest with
  | nil => intro uniq seen x h; exact Or.inl h
  | cons s t ih =>
    intro uniq seen x h
    simp only [dedupGo] at h
    split at h
    · rcases ih _ _ x h with h1 | h1
      · rcases List.mem_append.mp h1 with h2 | h2
        · exact Or.inl h2
        · simp only [List.mem_singleton] at h2
          exact Or.inr (by simp [h2])
      · exact Or.inr (List.mem_cons_of_mem _ h1)
    · rcases ih _ _ x h with h1 | h1
      · exact Or.inl h1
      · exact Or.inr (List.mem_cons_of_mem _ h1)

theorem dedupGo_length :
    ∀ (rest uniq : List String) (seen : List (List Char)),
      (dedupGo rest uniq seen).length ≤ uniq.length + rest.length := by
  intro rest
  induction rest with
  | nil => intro uniq seen; simp [dedupGo]
  | cons s t ih =>
    intro uniq seen
    simp only [dedupGo]
    split
    · have h := ih (uniq ++ [s]) (normKey s :: seen)
      simp only [List.length_append, List.length_cons, List.length_nil] at h ⊢
      omega
    · have := ih uniq seen
      simp only [List.length_cons]
      omega

/-- C10 (confirmed): every snippet returned by `deduplicate_snippets` is
byte-identical to one of the input snippets (the selector never rewrites;
keys and compression are used only for comparison), and the output is
never longer than the input. -/
theorem deduplicate_snippets_selects (snippets : List String) (min_length : Nat) :
    (∀ x ∈ deduplicate_snippets snippets min_length, x ∈ snippets) ∧
    (deduplicate_snippets snippets min_length).length ≤ snippets.length := by
  unfold deduplicate_snippets
  split
  · simp
  · dsimp only
    constructor
    · intro x hx
      rcases dedupGo_mem _ [] [] x hx with h | h
      · simp at h
      · have h2 := mem_sortByScoreDesc h
        exact (List.mem_filter.mp h2).1
    · have h1 := dedupGo_length (sortByScoreDesc
        (snippets.filter fun s => decide (min_length ≤ (pyStrip s.data).length))) [] []
      rw [length_sortByScoreDesc] at h1
      have h2 := List.length_filter_le
        (fun s => decide (min_length ≤ (pyStrip s.data).length)) snippets
      simp only [List.length_nil] at h1
      omega

/-- C10, witness at a concrete input list. -/
theorem deduplicate_snippets_selects_witness :
    (∀ x ∈ deduplicate_snippets [snip8a, snip8b] 10, x ∈ [snip8a, snip8b]) ∧
    (deduplicate_snippets [snip8a, snip8b] 10).length ≤ ([snip8a, snip8b] : List String).length :=
  deduplicate_snippets_selects [snip8a, snip8b] 10

/-- C8 (amended): for two valid snippets where the second scores strictly
higher and the comparator judges the first similar to the second, the
deduplicator keeps only the higher-scored one — even when their
normalized comparison keys differ. -/
theorem dedup_drops_lower_scored (a b : String) (min_length : Nat)
    (ha : min_length ≤ (pyStrip a.data).length)
    (hb : min_length ≤ (pyStrip b.data).length)
    (hs : score_snippet a < score_snippet b)
    (hsim : are_similar a b = true) :
    deduplicate_snippets [a, b] min_length = [b] := by
  unfold deduplicate_snippets
  rw [if_neg (by simp)]
  dsimp only
  have hfilter : List.filter (fun s => decide (min_length ≤ (pyStrip s.data).length)) [a, b]
      = [a, b] := by
    simp [List.filter, ha, hb]
  rw [hfilter]
  have hsort : sortByScoreDesc [a, b] = [b, a] := by
    show insertByScore a (insertByScore b []) = [b, a]
    have hb1 : insertByScore b [] = [b] := rfl
    rw [hb1]
    show (if score_snippet b ≤ score_snippet a then a :: [b] else b :: insertByScore a []) = [b, a]
    rw [if_neg (not_le.mpr hs)]
    rfl
  rw [hsort]
  simp only [dedupGo]
  rw [if_pos (by simp)]
  rw [if_neg (by simp [hsim])]
  rfl

/-- C8, counterexample to the claim as stated: the two Scenario A snippets
(identical up to trailing whitespace and one comment line) have *different*
normalized comparison keys — the key normalization does not strip comments
— yet the lower-scored one is still dropped, via the comparator. -/
theorem dedup_comment_key_cex :
    normKey snip8a ≠ normKey snip8b ∧
    deduplicate_snippets [snip8a, snip8b] 10 = [snip8b] :=
  ⟨by decide, by decide⟩

/-- C8, witness for the amended drop theorem at the Scenario A instance. -/
theorem dedup_drops_lower_scored_witness :
    (10 ≤ (pyStrip snip8a.data).length ∧ 10 ≤ (pyStrip snip8b.data).length ∧
     score_snippet snip8a < score_snippet snip8b ∧ are_similar snip8a snip8b = true) ∧
    deduplicate_snippets [snip8a, snip8b] 10 = [snip8b] :=
  ⟨⟨by decide, by decide, by decide, by decide⟩,
   dedup_drops_lower_scored snip8a snip8b 10 (by decide) (by decide) (by decide) (by decide)⟩

theorem dedupGo_pairwise :
    ∀ (rest uniq : List String) (seen : List (List Char)),
      (∀ u ∈ uniq, normKey u ∈ seen) →
      List.Pairwise (fun u v => normKey u ≠ normKey v) uniq →
      List.Pairwise (fun u v => are_similar v u = false) uniq →
      List.Pairwise (fun u v => normKey u ≠ normKey v) (dedupGo rest uniq seen) ∧
      List.Pairwise (fun u v => are_similar v u = false) (dedupGo rest uniq seen) := by
  intro rest
  induction rest with
  | nil => intro uniq seen _ h1 h2; exact ⟨h1, h2⟩
  | cons s t ih =>
    intro uniq seen hseen h1 h2
    simp only [dedupGo]
    split
    · next hcond =>
      apply ih
      · intro u hu
        rcases List.mem_append.mp hu with h | h
        · exact List.mem_cons_of_mem _ (hseen u h)
        · simp only [List.mem_singleton] at h
          subst h
          exact List.mem_cons_self _ _
      · rw [List.pairwise_append]
        refine ⟨h1, by simp, ?_⟩
        intro u hu v hv
        simp only [List.mem_singleton] at hv
        subst hv
        intro heq
        exact hcond.1 (heq ▸ hseen u hu)
      · rw [List.pairwise_append]
        refine ⟨h2, by simp, ?_⟩
        intro u hu v hv
        simp only [List.mem_singleton] at hv
        subst hv
        exact hcond.2 u hu
    · exact ih uniq seen hseen h1 h2

/-- C3 (amended): in every output of `deduplicate_snippets`, no two
accepted snippets share a normalized comparison key, and no later-accepted
snippet is judged similar to an earlier-accepted one in the orientation
the algorithm checks (`are_similar(candidate, accepted)`).  The symmetric
reading of the invariant fails because the comparator itself is
order-dependent. -/
theorem deduplicate_snippets_pairwise (snippets : List String) (min_length : Nat) :
    List.Pairwise (fun u v => normKey u ≠ normKey v)
      (deduplicate_snippets snippets min_length) ∧
    List.Pairwise (fun u v => are_similar v u = false)
      (deduplicate_snippets snippets min_length) := by
  unfold deduplicate_snippets
  split
  · simp
  · dsimp only
    exact dedupGo_pairwise _ [] [] (by simp) (by simp) (by simp)















/-- C5 (amended): the comparator is symmetric whenever either normalized
snippet is shorter than the 50-character fuzzy floor, where it compares
by exact equality.  For longer inputs the underlying sequence-matcher
ratio is order-dependent (autojunk applies to the second argument only)
and symmetry can fail. -/
theorem are_similar_symm_of_short (a b : String) (t : ℚ)
    (h : (normalizeSim a.data).length < 50 ∨ (normalizeSim b.data).length < 50) :
    are_similar a b t = are_similar b a t := by
  unfold are_similar
  dsimp only
  rw [if_pos h, if_pos (Or.symm h)]
  exact decide_eq_decide.mpr eq_comm

/-- C5, witness for the short-input symmetry theorem. -/
theorem are_similar_symm_of_short_witness :
    ((normalizeSim ("ab" : String).data).length < 50 ∨
      (normalizeSim ("cd" : String).data).length < 50) ∧
    are_similar "ab" "cd" (mkRat 9 10) = are_similar "cd" "ab" (mkRat 9 10) :=
  ⟨by decide, are_similar_symm_of_short "ab" "cd" (mkRat 9 10) (by decide)⟩

set_option maxRecDepth 200000 in
/-- C5, counterexample to symmetry as stated: at the default threshold,
`simX` (170 characters) is not similar to `simY` (201 characters) — when
`simY` is the second argument, autojunk purges its popular characters, the
`qqq` block cannot seed a match, and the ratio is 330/371 < 0.9 — but in
the swapped order no junking occurs, the ratio is 336/371 ≥ 0.9, and they
are judged similar. -/
theorem are_similar_symm_cex :
    are_similar simX simY = false ∧ are_similar simY simX = true :=
  ⟨by decide, by decide⟩

set_option maxRecDepth 200000 in
/-- C3, counterexample to the claim as stated: `deduplicate_snippets`
accepts both `simY` and `simX` (the acceptance check `are_similar simX
simY` is `false`), yet the two accepted snippets are judged similar in
the other orientation (`are_similar simY simX` is `true`), so the
unordered no-two-similar invariant fails. -/
theorem dedup_two_similar_cex :
    ¬ (∀ u ∈ deduplicate_snippets [simY, simX] 10,
        ∀ v ∈ deduplicate_snippets [simY, simX] 10,
          u ≠ v → are_similar u v = false) := by
  intro hall
  have heq : deduplicate_snippets [simY, simX] 10 = [simY, simX] := by decide
  have h1 : simY ∈ deduplicate_snippets [simY, simX] 10 := by rw [heq]; simp
  have h2 : simX ∈ deduplicate_snippets [simY, simX] 10 := by rw [heq]; simp
  have hne : simY ≠ simX := by decide
  have hfalse := hall simY h1 simX h2 hne
  have htrue : are_similar simY simX = true := by decide
  rw [htrue] at hfalse
  exact absurd hfalse (by simp)

theorem searchContractRun_requests (address : String) :
    ∀ (resps : List GhResp) (retry : Nat) (r : GhRequest),
      r ∈ (searchContractRun address resps retry).1 → r = mkSearchRequest address := by
  intro resps
  induction resps with
  | nil =>
    intro retry r hr
    unfold searchContractRun at hr
    split at hr
    · simp at hr
    · simp at hr
  | cons resp rest ih =>
    intro retry r hr
    unfold searchContractRun at hr
    split at hr
    · simp at hr
    · cases resp with
      | rateLimited n =>
        cases n with
        | zero =>
          dsimp only at hr
          rcases List.mem_cons.mp hr with h | h
          · exact h
          · exact ih retry r h
        | succ m =>
          dsimp only at hr
          rcases List.mem_cons.mp hr with h | h
          · exact h
          · exact ih (retry + 1) r h
      | netError =>
        dsimp only at hr
        rcases List.mem_cons.mp hr with h | h
        · exact h
        · exact ih (retry + 1) r h
      | ok items hn =>
        dsimp only at hr
        rcases List.mem_cons.mp hr with h | h
        · exact h
        · simp at h

theorem searchRefsRun_requests (address : String) :
    ∀ (resps : List GhResp) (retry : Nat) (r : GhRequest),
      r ∈ (searchRefsRun address resps retry).1 → r = mkSearchRequest address := by
  intro resps
  induction resps with
  | nil =>
    intro retry r hr
    unfold searchRefsRun at hr
    split at hr
    · simp at hr
    · simp at hr
  | cons resp rest ih =>
    intro retry r hr
    unfold searchRefsRun at hr
    split at hr
    · simp at hr
    · cases resp with
      | rateLimited n =>
        cases n with
        | zero =>
          dsimp only at hr
          rcases List.mem_cons.mp hr with h | h
          · exact h
          · exact ih retry r h
        | succ m =>
          dsimp only at hr
          rcases List.mem_cons.mp hr with h | h
          · exact h
          · exact ih (retry + 1) r h
      | netError =>
        dsimp only at hr
        rcases List.mem_cons.mp hr with h | h
        · exact h
        · exact ih (retry + 1) r h
      | ok items hn =>
        dsimp only at hr
        rcases List.mem_cons.mp hr with h | h
        · exact h
        · simp at h

theorem searchContractRun_ok_step (address : String) (items : List GhItem) (hn : Bool)
    (rest : List GhResp) (retry : Nat) (h : retry < 3) :
    searchContractRun address (GhResp.ok items hn :: rest) retry =
      ([mkSearchRequest address], some (processItems items)) := by
  unfold searchContractRun
  rw [if_neg (by omega)]

theorem searchContractRun_net_step (address : String) (rest : List GhResp) (retry : Nat)
    (h : retry < 3) :
    searchContractRun address (GhResp.netError :: rest) retry =
      (mkSearchRequest address :: (searchContractRun address rest (retry + 1)).1,
        (searchContractRun address rest (retry + 1)).2) := by
  conv_lhs => rw [searchContractRun]
  rw [if_neg (by omega)]

theorem searchContractRun_done (address : String) (resps : List GhResp) (retry : Nat)
    (h : 3 ≤ retry) :
    searchContractRun address resps retry =
      ([], some { repos_data := [], snippets := [] }) := by
  unfold searchContractRun
  rw [if_pos h]
  rfl

/-- C7 (confirmed): a rate-limited response (403 with zero remaining quota)
makes the fetcher re-send the byte-identical request — every request it
ever sends equals `mkSearchRequest address` (same query, same page) — it
does so for any number of rate limits without touching the retry counter,
while three transient errors exhaust the bounded retry ceiling. -/
theorem fetch_rate_limit_retries_identical (address : String) :
    (∀ (resps : List GhResp) (retry : Nat) (r : GhRequest),
        r ∈ (searchContractRun address resps retry).1 → r = mkSearchRequest address) ∧
    (∀ (n : Nat) (items : List GhItem) (hn : Bool),
        searchContractRun address
            (List.replicate n (GhResp.rateLimited 0) ++ [GhResp.ok items hn]) 0 =
          (List.replicate (n + 1) (mkSearchRequest address), some (processItems items))) ∧
    (∀ rest : List GhResp,
        searchContractRun address (List.replicate 3 GhResp.netError ++ rest) 0 =
          (List.replicate 3 (mkSearchRequest address),
            some { repos_data := [], snippets := [] })) := by
  refine ⟨searchContractRun_requests address, ?_, ?_⟩
  · intro n items hn
    induction n with
    | zero => rfl
    | succ m ihm =>
      rw [List.replicate_succ, List.cons_append]
      unfold searchContractRun
      rw [if_neg (by omega)]
      dsimp only
      rw [ihm]
      simp [List.replicate_succ]
  · intro rest
    rw [show (List.replicate 3 GhResp.netError ++ rest) =
      GhResp.netError :: (GhResp.netError :: (GhResp.netError :: rest)) from rfl]
    rw [searchContractRun_net_step address _ 0 (by omega),
      searchContractRun_net_step address _ 1 (by omega),
      searchContractRun_net_step address _ 2 (by omega),
      searchContractRun_done address rest 3 (by omega)]
    rfl

/-- C7, witness: a run that hits one rate limit and then succeeds; the
request in its trace is the fixed search request. -/
theorem fetch_rate_limit_retries_identical_witness :
    (mkSearchRequest "0xw7" ∈
      (searchContractRun "0xw7" [GhResp.rateLimited 0, GhResp.ok [] false] 0).1) ∧
    mkSearchRequest "0xw7" = mkSearchRequest "0xw7" ∧
    searchContractRun "0xw7" (List.replicate 2 (GhResp.rateLimited 0) ++ [GhResp.ok [] false]) 0 =
      (List.replicate 3 (mkSearchRequest "0xw7"), some (processItems [])) :=
  ⟨by decide,
   (fetch_rate_limit_retries_identical "0xw7").1 [GhResp.rateLimited 0, GhResp.ok [] false] 0
     (mkSearchRequest "0xw7") (by decide),
   (fetch_rate_limit_retries_identical "0xw7").2.1 2 [] false⟩

/-- C2 (amended): both fetchers only ever send the fixed page-1 request —
they never advance to another page — and the first successful response
ends the run with that single page's items as the whole result. -/
theorem fetch_first_page_only (address : String) :
    (mkSearchRequest address).page = 1 ∧
    (∀ (resps : List GhResp) (retry : Nat) (r : GhRequest),
        r ∈ (searchContractRun address resps retry).1 → r = mkSearchRequest address) ∧
    (∀ (resps : List GhResp) (retry : Nat) (r : GhRequest),
        r ∈ (searchRefsRun address resps retry).1 → r = mkSearchRequest address) ∧
    (∀ (items : List GhItem) (hn : Bool) (rest : List GhResp) (retry : Nat), retry < 3 →
        searchContractRun address (GhResp.ok items hn :: rest) retry =
          ([mkSearchRequest address], some (processItems items))) :=
  ⟨rfl, searchContractRun_requests address, searchRefsRun_requests address,
   fun items hn rest retry h => searchContractRun_ok_step address items hn rest retry h⟩

/-- C2, counterexample to the claim as stated: with a two-page service,
the fetcher receives a first-page response that signals a further page
(`hasNextPage = true`), yet it stops after that one request, and its
result misses the second page's repository. -/
theorem fetch_all_pages_cex :
    searchContractRun "0xfeed" [GhResp.ok [ghItemA] true] 0 =
      ([mkSearchRequest "0xfeed"], some (processItems [ghItemA])) ∧
    (processItems [ghItemA]).repos_data ≠ specFetchAllPages [[ghItemA], [ghItemB]] :=
  ⟨by decide, by decide⟩

/-- C2, witness for the first-page-only theorem. -/
theorem fetch_first_page_only_witness :
    (mkSearchRequest "0xw2" ∈ (searchContractRun "0xw2" [GhResp.ok [ghItemA] true] 0).1) ∧
    mkSearchRequest "0xw2" = mkSearchRequest "0xw2" ∧
    searchContractRun "0xw2" [GhResp.ok [ghItemA] true] 0 =
      ([mkSearchRequest "0xw2"], some (processItems [ghItemA])) :=
  ⟨by decide,
   (fetch_first_page_only "0xw2").2.1 [GhResp.ok [ghItemA] true] 0 (mkSearchRequest "0xw2")
     (by decide),
   (fetch_first_page_only "0xw2").2.2.2 [ghItemA] true [] 0 (by omega)⟩

end ContractGitSearch
